import Mathlib

/-!
Verification of the command-safety core of `execute-my-will`.

The development shallowly embeds the pure string-processing core of the
repository: the environment-command classifier
(`internal/system/env_validator.go`), the AI response parser and retry
wrapper (`internal/ai/client.go`), and the intent/directory validator
(`internal/system/validator.go`).  Go strings are modelled as `List Char`
(Go byte operations coincide with character operations on the ASCII
inputs of interest); each Lean definition mirrors the correspondingly
named Go function.
-/

namespace ExecuteMyWill

/-! ## String primitives (models of Go `strings` package functions) -/

/-- Model of the effect of `strings.ToLower` on one ASCII character
(Go lowercases the full Unicode range; the commands analysed here are ASCII). -/
def lowerChar (c : Char) : Char :=
  if 65 ≤ c.toNat ∧ c.toNat ≤ 90 then Char.ofNat (c.toNat + 32) else c

/-- Model of `strings.ToLower`. -/
def toLowerL (s : List Char) : List Char := s.map lowerChar

/-- Whitespace class used by `strings.TrimSpace` / `strings.Fields`
(`unicode.IsSpace`, restricted to the characters that can occur here). -/
def isSpaceGo (c : Char) : Bool :=
  c = ' ' || c = '\t' || c = '\n' || c = '\x0b' || c = '\x0c' || c = '\r'

/-- Model of `strings.TrimSpace`. -/
def trimSpaceL (s : List Char) : List Char :=
  ((s.dropWhile isSpaceGo).reverse.dropWhile isSpaceGo).reverse

/-- `startsWithL p s` models `strings.HasPrefix(s, p)`. -/
def startsWithL : List Char → List Char → Bool
  | [], _ => true
  | _ :: _, [] => false
  | c :: cs, d :: ds => c == d && startsWithL cs ds

/-- `endsWithL p s` models `strings.HasSuffix(s, p)`. -/
def endsWithL (p s : List Char) : Bool :=
  startsWithL p.reverse s.reverse

/-- `containsSubL s sub` models `strings.Contains(s, sub)`. -/
def containsSubL : List Char → List Char → Bool
  | [], needle => needle.isEmpty
  | c :: t, needle => startsWithL needle (c :: t) || containsSubL t needle

/-- One step list of `strings.Split`: `acc` holds the current field reversed. -/
def splitOnAux (sep : List Char) : Nat → List Char → List Char → List (List Char)
  | 0, s, acc => [acc.reverse ++ s]
  | fuel + 1, s, acc =>
    if startsWithL sep s then
      acc.reverse :: splitOnAux sep fuel (s.drop sep.length) []
    else
      match s with
      | [] => [acc.reverse]
      | c :: t => splitOnAux sep fuel t (c :: acc)

/-- Model of `strings.Split` for a non-empty separator. -/
def splitOnL (sep s : List Char) : List (List Char) :=
  if sep = [] then [s] else splitOnAux sep (s.length + 1) s []

/-- The characters of a string literal. -/
def chars (s : String) : List Char := s.data

/-! ## Environment-command classifier (`internal/system/env_validator.go`) -/

/-- The prefix list of `extractCoreCommand` (tried in order, first match
stripped once). -/
def goPrefixes : List (List Char) :=
  [chars "sudo ", chars "sudo -E ", chars "sudo -i ", chars "nohup "]

/-- Strip the first matching prefix of the list, once (the loop with
`break` at the top of `extractCoreCommand`). -/
def stripOnce : List (List Char) → List Char → List Char
  | [], cmd => cmd
  | p :: ps, cmd => if startsWithL p cmd then cmd.drop p.length else stripOnce ps cmd

/-- The chain separators recognised by `extractCoreCommand`, in order. -/
def chainSeps : List (List Char) :=
  [chars " && ", chars " || ", chars " ; ", chars "; "]

/-- First separator of the list contained in the command (the outer loop of
`extractCoreCommand`, which breaks at the first separator found). -/
def findSep : List (List Char) → List Char → Option (List Char)
  | [], _ => none
  | sep :: rest, cmd => if containsSubL cmd sep then some sep else findSep rest cmd

/-- Environment keywords of `looksLikeEnvironmentCommand`. -/
def envKeywords : List (List Char) :=
  [chars "export", chars "source", chars ".", chars "cd", chars "alias",
   chars "unalias", chars "conda", chars "activate", chars "deactivate",
   chars "nvm", chars "rbenv", chars "pyenv", chars "set", chars "unset",
   chars "module", chars "ml"]

/-- The keyword test of `looksLikeEnvironmentCommand`: the command starts with
`keyword ` or equals the keyword. -/
def envKeywordStart (command : List Char) : Bool :=
  envKeywords.any (fun k => startsWithL (k ++ chars " ") command || command == k)

/-- The variable-name test of `looksLikeEnvironmentCommand`: the name is
nonempty and its first byte is an ASCII uppercase letter or an underscore. -/
def upperOrUnderscoreHead : List Char → Bool
  | [] => false
  | c :: _ => (65 ≤ c.toNat && c.toNat ≤ 90) || c == '_'

/-- `looksLikeEnvironmentCommand`: keyword start, or a variable assignment
whose (trimmed) left-hand side starts with an ASCII uppercase letter or an
underscore.  (Go checks `len(parts) >= 2` after `strings.Split(command, "=")`,
which always holds once the command contains `=`; `parts[0]` is the text
before the first `=`.) -/
def looksLikeEnvironmentCommand (command : List Char) : Bool :=
  envKeywordStart command ||
  (containsSubL command (chars "=") && !containsSubL command (chars "==") &&
    upperOrUnderscoreHead (trimSpaceL (command.takeWhile (fun c => !(c == '=')))))

/-- Install-command patterns of `isInstallCommand`. -/
def installPatterns : List (List Char) :=
  [chars "apt update", chars "apt upgrade", chars "apt install",
   chars "apt-get update", chars "apt-get upgrade", chars "apt-get install",
   chars "yum install", chars "yum update", chars "dnf install", chars "dnf update",
   chars "pacman -S", chars "pacman -Sy", chars "pacman -Syu",
   chars "brew install", chars "brew update", chars "brew upgrade",
   chars "pip install", chars "pip3 install",
   chars "npm install", chars "npm update",
   chars "gem install", chars "cargo install", chars "go install", chars "snap install"]

/-- Install-with-flags patterns of `isInstallCommand`. -/
def installWithFlagsPatterns : List (List Char) :=
  [chars "apt install -", chars "apt-get install -",
   chars "yum install -", chars "dnf install -",
   chars "brew install -"]

/-- `isInstallCommand`. -/
def isInstallCommand (command : List Char) : Bool :=
  let cleanCmd :=
    if startsWithL (chars "sudo ") command then command.drop 5 else command
  let cleanCmd := trimSpaceL cleanCmd
  installPatterns.any (fun p => startsWithL p cleanCmd) ||
  installWithFlagsPatterns.any (fun p => startsWithL p cleanCmd)

/-- The inner segment scan of `extractCoreCommand`: either an
environment-looking segment is found (early `return trimmed`), or the scan
finishes with the recorded first non-install segment. -/
inductive ScanOutcome where
  | env (seg : List Char)
  | fallback (firstNonInstall : Option (List Char))
deriving DecidableEq, Repr

/-- The segment loop of `extractCoreCommand` (accumulator = `firstNonInstall`,
`none` for Go's empty string). -/
def scanParts : List (List Char) → Option (List Char) → ScanOutcome
  | [], fni => .fallback fni
  | p :: ps, fni =>
    let trimmed := trimSpaceL p
    if trimmed = [] then scanParts ps fni
    else if looksLikeEnvironmentCommand trimmed then .env trimmed
    else if fni = none ∧ ¬ isInstallCommand trimmed then scanParts ps (some trimmed)
    else scanParts ps fni

/-- A chain segment is selected by the scan when its trimmed form is nonempty
and looks like an environment-mutation attempt. -/
def envSegmentP (segment : List Char) : Bool :=
  !(trimSpaceL segment).isEmpty && looksLikeEnvironmentCommand (trimSpaceL segment)

/-- `extractCoreCommand` (its argument is the already-lowercased command). -/
def extractCoreCommand (command : List Char) : List Char :=
  match findSep chainSeps (stripOnce goPrefixes command) with
  | none => trimSpaceL (stripOnce goPrefixes command)
  | some sep =>
    match scanParts (splitOnL sep (stripOnce goPrefixes command)) none with
    | .env t => t
    | .fallback none => trimSpaceL (stripOnce goPrefixes command)
    | .fallback (some f) => trimSpaceL f

/-- `looksLikeSourceableFile`. -/
def looksLikeSourceableFile (filename : List Char) : Bool :=
  let filename := toLowerL filename
  [chars ".bashrc", chars ".zshrc", chars ".profile", chars ".bash_profile",
   chars ".env", chars ".envrc", chars "activate",
   chars ".sh", chars ".bash", chars ".zsh"].any (fun p => containsSubL filename p) ||
  (containsSubL filename (chars "env") &&
    (endsWithL (chars ".txt") filename || endsWithL (chars ".conf") filename ||
     !containsSubL filename (chars ".")))

/-- `detectSourceCommand`. -/
def detectSourceCommand (coreCmd _fullCmd : List Char) : Bool :=
  [chars "source ", chars ". "].any (fun p =>
    startsWithL p coreCmd &&
    looksLikeSourceableFile (trimSpaceL (coreCmd.drop p.length)))

/-- The tail of the regex `^[A-Z_][A-Z0-9_]*=`: zero or more characters of
the class `[A-Z0-9_]` followed by `=`. -/
def varAssignTail : List Char → Bool
  | [] => false
  | c :: t =>
    if c == '=' then true
    else if (65 ≤ c.toNat && c.toNat ≤ 90) || (48 ≤ c.toNat && c.toNat ≤ 57) || c == '_' then
      varAssignTail t
    else false

/-- The anchored regex `^[A-Z_][A-Z0-9_]*=` of `detectExportCommand`. -/
def varAssignMatch : List Char → Bool
  | [] => false
  | c :: t => ((65 ≤ c.toNat && c.toNat ≤ 90) || c == '_') && varAssignTail t

/-- `detectExportCommand`. -/
def detectExportCommand (coreCmd fullCmd : List Char) : Bool :=
  startsWithL (chars "export ") coreCmd ||
  varAssignMatch (trimSpaceL fullCmd) ||
  [chars "path=", chars "PATH=", chars "$path", chars "$PATH"].any
    (fun p => containsSubL fullCmd p)

/-- `detectAliasCommand`. -/
def detectAliasCommand (coreCmd _fullCmd : List Char) : Bool :=
  startsWithL (chars "alias ") coreCmd || startsWithL (chars "unalias ") coreCmd

/-- `detectCdCommand`. -/
def detectCdCommand (coreCmd _fullCmd : List Char) : Bool :=
  startsWithL (chars "cd ") coreCmd || coreCmd == chars "cd" ||
  startsWithL (chars "pushd ") coreCmd || startsWithL (chars "popd") coreCmd

/-- `detectVirtualEnvCommand`. -/
def detectVirtualEnvCommand (coreCmd fullCmd : List Char) : Bool :=
  [chars "activate", chars "deactivate", chars "workon ", chars "mkvirtualenv ",
   chars "rmvirtualenv ", chars "virtualenv", chars "python -m venv",
   chars "python3 -m venv", chars "poetry shell", chars "poetry env",
   chars "pipenv shell", chars "pipenv activate"].any (fun p =>
    startsWithL p coreCmd || containsSubL coreCmd p) ||
  containsSubL fullCmd (chars "bin/activate") ||
  containsSubL fullCmd (chars "Scripts/activate")

/-- `detectShellFunctionCommand`. -/
def detectShellFunctionCommand (coreCmd fullCmd : List Char) : Bool :=
  [chars "function ", chars "() \x7b"].any (fun p => containsSubL fullCmd p) ||
  startsWithL (chars "unset ") coreCmd

/-- `detectEnvironmentModuleCommand`. -/
def detectEnvironmentModuleCommand (coreCmd _fullCmd : List Char) : Bool :=
  [chars "module load", chars "module unload", chars "module purge",
   chars "module swap", chars "ml "].any (fun p => startsWithL p coreCmd)

/-- `detectPathModification`. -/
def detectPathModification (_coreCmd fullCmd : List Char) : Bool :=
  [chars ">> ~/.bashrc", chars ">> ~/.zshrc", chars ">> ~/.profile",
   chars ">> ~/.bash_profile", chars ">> $HOME/.bashrc", chars ">> $HOME/.zshrc"].any
    (fun p => containsSubL fullCmd p &&
      (containsSubL fullCmd (chars "PATH") || containsSubL fullCmd (chars "export")))

/-- `detectShellOptions`. -/
def detectShellOptions (coreCmd _fullCmd : List Char) : Bool :=
  [chars "set -", chars "set +", chars "shopt -s", chars "shopt -u",
   chars "setopt", chars "unsetopt", chars "ulimit", chars "umask"].any
    (fun p => startsWithL p coreCmd)

/-- `detectCondaEnvironment`. -/
def detectCondaEnvironment (coreCmd _fullCmd : List Char) : Bool :=
  [chars "conda activate", chars "conda deactivate", chars "conda env",
   chars "mamba activate", chars "mamba deactivate"].any
    (fun p => startsWithL p coreCmd)

/-- `detectDockerEnvironment`. -/
def detectDockerEnvironment (_coreCmd fullCmd : List Char) : Bool :=
  [chars "eval $(docker-machine env", chars "docker-machine env",
   chars "$(aws ecr get-login", chars "eval $(aws ecr get-login"].any
    (fun p => containsSubL fullCmd p)

/-- `detectVersionManagers`. -/
def detectVersionManagers (coreCmd _fullCmd : List Char) : Bool :=
  [chars "rbenv shell", chars "rbenv local", chars "rbenv global",
   chars "pyenv shell", chars "pyenv local", chars "pyenv global",
   chars "nvm use", chars "nvm alias",
   chars "nodenv shell", chars "nodenv local", chars "nodenv global",
   chars "jenv shell", chars "jenv local", chars "jenv global",
   chars "tfenv use"].any (fun p => startsWithL p coreCmd)

/-- The ordered detector table of `detectEnvironmentCommand`. -/
def envChecks : List (List Char × (List Char → List Char → Bool)) :=
  [(chars "path_modification", detectPathModification),
   (chars "conda_env", detectCondaEnvironment),
   (chars "source", detectSourceCommand),
   (chars "export", detectExportCommand),
   (chars "alias", detectAliasCommand),
   (chars "cd", detectCdCommand),
   (chars "virtual_env", detectVirtualEnvCommand),
   (chars "shell_function", detectShellFunctionCommand),
   (chars "environment_module", detectEnvironmentModuleCommand),
   (chars "shell_options", detectShellOptions),
   (chars "docker_env", detectDockerEnvironment),
   (chars "rbenv_pyenv", detectVersionManagers)]

/-- The detector loop: name of the first matching detector, `""` if none. -/
def runChecks : List (List Char × (List Char → List Char → Bool)) →
    List Char → List Char → List Char
  | [], _, _ => []
  | (n, d) :: rest, coreCmd, fullCmd =>
    if d coreCmd fullCmd then n else runChecks rest coreCmd fullCmd

/-- `detectEnvironmentCommand`: lower-case the command, extract the core
command, and apply the detectors in order. -/
def detectEnvironmentCommand (command : List Char) : List Char :=
  runChecks envChecks (extractCoreCommand (toLowerL command)) command

/-- `EnvironmentCommandError` (the fields of the Go struct). -/
structure EnvironmentCommandError where
  command : List Char
  reason : List Char
  explanation : List Char
deriving DecidableEq, Repr

/-- `ValidateEnvironmentCommand`: `none` means the command is safe to run in
a disposable subprocess. -/
def validateEnvironmentCommand (command : List Char) : Option EnvironmentCommandError :=
  let cleanCmd := trimSpaceL command
  if cleanCmd = [] then none
  else
    let envCmd := detectEnvironmentCommand cleanCmd
    if envCmd = [] then none
    else some ⟨command, envCmd, chars "this application cannot modify your terminal session"⟩

/-! ## Response classifier (`parseAIResponse` in `internal/ai/client.go`) -/

/-- The three response kinds (`ResponseTypeCommand/Script/Failure`). -/
inductive ResponseType where
  | command
  | script
  | failure
deriving DecidableEq, Repr

/-- `AIResponse` (the fields of the Go struct; unset fields are `""`). -/
structure AIResponse where
  type : ResponseType
  content : List Char
  error : List Char
deriving DecidableEq, Repr

/-- The backtick character. -/
def btick : Char := Char.ofNat 96

/-- The triple-backtick fence marker of the script regex. -/
def fenceMark : List Char := chars "```"

/-- The language-tag alternation of the script regex, in alternation order. -/
def fenceTags : List (List Char) :=
  [chars "bash", chars "sh", chars "cmd", chars "bat", chars "powershell", chars "ps1"]

/-- Matching of `(?:bash|sh|cmd|bat|powershell|ps1)?\n` right after the opening
fence: alternatives tried in order, the empty alternative last.  Returns the
remainder after the newline on success.  (No two tags are prefixes of one
another and every tag starts with a letter, so this deterministic scan agrees
with the backtracking alternation.) -/
def dropTagNewline : List (List Char) → List Char → Option (List Char)
  | [], s =>
    match s with
    | c :: t => if c == '\n' then some t else none
    | [] => none
  | tag :: rest, s =>
    if startsWithL (tag ++ chars "\n") s then some (s.drop (tag.length + 1))
    else dropTagNewline rest s

/-- The lazy interior `(.*?)` of the script regex under the `(?s)` flag:
the shortest character run followed by a closing fence. -/
def grabInner : List Char → Option (List Char)
  | [] => none
  | c :: t =>
    if startsWithL fenceMark (c :: t) then some []
    else (grabInner t).map (fun r => c :: r)

/-- Attempt of the whole regex at one start position. -/
def tryFenceAt (s : List Char) : Option (List Char) :=
  if startsWithL fenceMark s then
    (dropTagNewline fenceTags (s.drop fenceMark.length)).bind grabInner
  else none

/-- Leftmost match of the regex
`` (?s)```(?:bash|sh|cmd|bat|powershell|ps1)?\n(.*?)``` `` (the capture group),
as found by `regexp.FindStringSubmatch`. -/
def findFence : List Char → Option (List Char)
  | [] => none
  | c :: t =>
    match tryFenceAt (c :: t) with
    | some inner => some inner
    | none => findFence t

/-- The SCRIPT branch of `parseAIResponse`: the trimmed fenced interior when
the regex matches, otherwise the stripped text verbatim. -/
def extractScript (scriptContent : List Char) : List Char :=
  match findFence scriptContent with
  | some inner => trimSpaceL inner
  | none => scriptContent

/-- `parseAIResponse`. -/
def parseAIResponse (response : List Char) : AIResponse :=
  let response := trimSpaceL response
  if startsWithL (chars "COMMAND:") response then
    ⟨.command, trimSpaceL (response.drop (chars "COMMAND:").length), []⟩
  else if startsWithL (chars "SCRIPT:") response then
    ⟨.script, extractScript (trimSpaceL (response.drop (chars "SCRIPT:").length)), []⟩
  else if startsWithL (chars "FAILURE:") response then
    ⟨.failure, [], trimSpaceL (response.drop (chars "FAILURE:").length)⟩
  else
    ⟨.command, response, []⟩

/-! ## Retry wrapper (`exponentialRetryForAiResponse` in `internal/ai/client.go`)

The generation call is modelled as a function from the invocation index to its
result; durations are in nanoseconds (`time.Duration` units). -/

/-- `10 * time.Second` in nanoseconds (the hard-coded delay cap). -/
def tenSeconds : Nat := 10000000000

/-- The outcome of a retry run: final result (an error carries the reported
attempt count and the last underlying error), total number of invocations of
the call, and the sequence of sleeps performed. -/
structure RetryTrace (ε α : Type) where
  result : Except (Nat × Option ε) α
  invocations : Nat
  sleeps : List Nat

/-- The `delay *= 2` step followed by the `10 * time.Second` cap. -/
def capDouble (delay : Nat) : Nat :=
  if delay * 2 > tenSeconds then tenSeconds else delay * 2

/-- The retry loop (`i` = next invocation index, `remaining` = iterations
left, `sleeps` accumulated in reverse).  On failure the loop sleeps for the
current delay, doubles it with the cap, and continues. -/
def retryAux (fn : Nat → Except ε α) (maxRetries : Nat) :
    Nat → Nat → Nat → List Nat → Option ε → RetryTrace ε α
  | 0, i, _delay, sleeps, lastErr => ⟨.error (maxRetries, lastErr), i, sleeps.reverse⟩
  | remaining + 1, i, delay, sleeps, _lastErr =>
    match fn i with
    | .ok v => ⟨.ok v, i + 1, sleeps.reverse⟩
    | .error e =>
      retryAux fn maxRetries remaining (i + 1) (capDouble delay) (delay :: sleeps) (some e)

/-- `exponentialRetryForAiResponse`. -/
def exponentialRetryForAiResponse (fn : Nat → Except ε α) (maxRetries : Nat)
    (delay : Nat) : RetryTrace ε α :=
  retryAux fn maxRetries maxRetries 0 delay [] none

/-- The sleep sequence produced by `n` consecutive failures starting from
`delay`. -/
def sleepSeq (delay : Nat) : Nat → List Nat
  | 0 => []
  | n + 1 => delay :: sleepSeq (capDouble delay) n

/-! ## Intent validator (`internal/system/validator.go`)

Filesystem existence is abstracted as an oracle `fs` from paths to Booleans
(`os.Stat` succeeding); the home directory is the context's `HomeDir`. -/

/-- The filesystem-operation keywords of `containsDirectoryOperation`. -/
def dirKeywords : List (List Char) :=
  [chars "move", chars "copy", chars "list", chars "cd", chars "navigate",
   chars "directory", chars "folder", chars "file"]

/-- `containsDirectoryOperation`. -/
def containsDirectoryOperation (intent : List Char) : Bool :=
  dirKeywords.any (fun k => containsSubL (toLowerL intent) k)

/-- `isKnownDirectory`. -/
def isKnownDirectory (word : List Char) : Bool :=
  [chars "home", chars "current", chars "present", chars "here", chars "pwd",
   chars "~", chars ".", chars "..", chars "/"].any (fun d => toLowerL word == d)

/-- `isCommonWord`. -/
def isCommonWord (word : List Char) : Bool :=
  [chars "the", chars "to", chars "from", chars "in", chars "at", chars "of",
   chars "for", chars "with", chars "by", chars "a", chars "an", chars "and",
   chars "or", chars "but"].any (fun c => toLowerL word == c)

/-- Accumulating pass of `strings.Fields` (`acc` holds the current field
reversed). -/
def fieldsAux : List Char → List Char → List (List Char)
  | [], acc => if acc = [] then [] else [acc.reverse]
  | c :: t, acc =>
    if isSpaceGo c then
      if acc = [] then fieldsAux t [] else acc.reverse :: fieldsAux t []
    else fieldsAux t (c :: acc)

/-- Model of `strings.Fields`. -/
def fieldsGo (s : List Char) : List (List Char) := fieldsAux s []

/-- Model of `filepath.Join(home, rest)` as used by `pathExists` (duplicate
slash at the join point collapsed; further lexical cleaning not modelled, and
immaterial here since filesystem existence is an abstract oracle). -/
def joinPath (home rest : List Char) : List Char :=
  if rest = [] then home
  else if startsWithL (chars "/") rest then home ++ rest
  else home ++ chars "/" ++ rest

/-- The `~` expansion of `pathExists`. -/
def expandTilde (home word : List Char) : List Char :=
  if startsWithL (chars "~") word then joinPath home (word.drop 1) else word

/-- `pathExists` over the existence oracle `fs`. -/
def pathExistsB (fs : List Char → Bool) (home word : List Char) : Bool :=
  fs (expandTilde home word)

/-- The error message of `validateDirectoryReferences`. -/
def dirErrMsg (word : List Char) : List Char :=
  chars "the directory \x27" ++ word ++
  chars "\x27 does not exist in your realm. Please specify an existing path or use specific directory names"

/-- The word loop of `validateDirectoryReferences`. -/
def checkWords (fs : List Char → Bool) (home : List Char) : List (List Char) → Option (List Char)
  | [] => none
  | w :: ws =>
    if isKnownDirectory w || isCommonWord w then checkWords fs home ws
    else if containsSubL w (chars "/") || containsSubL w (chars "\\") then
      if !pathExistsB fs home w then some (dirErrMsg w) else checkWords fs home ws
    else checkWords fs home ws

/-- `validateDirectoryReferences`. -/
def validateDirectoryReferences (fs : List Char → Bool) (home intent : List Char) :
    Option (List Char) :=
  checkWords fs home (fieldsGo intent)

/-- `ValidateIntent`: directory references are checked only when the intent
mentions a filesystem operation. -/
def validateIntent (fs : List Char → Bool) (home intent : List Char) : Option (List Char) :=
  if containsDirectoryOperation intent then validateDirectoryReferences fs home intent
  else none

/-! ## Helper lemmas -/

theorem startsWithL_append (p r : List Char) : startsWithL p (p ++ r) = true := by
  induction p with
  | nil => rfl
  | cons c cs ih => simp [startsWithL, ih]

theorem startsWithL_iff {p s : List Char} :
    startsWithL p s = true ↔ ∃ r, s = p ++ r := by
  constructor
  · intro h
    induction p generalizing s with
    | nil => exact ⟨s, rfl⟩
    | cons c cs ih =>
      cases s with
      | nil => simp [startsWithL] at h
      | cons d ds =>
        simp only [startsWithL, Bool.and_eq_true, beq_iff_eq] at h
        obtain ⟨r, hr⟩ := ih h.2
        exact ⟨r, by rw [← h.1, hr]; rfl⟩
  · rintro ⟨r, rfl⟩
    exact startsWithL_append p r

/-- The detector loop returns the name of the first matching detector. -/
theorem runChecks_eq_find (cs : List (List Char × (List Char → List Char → Bool)))
    (coreCmd fullCmd : List Char) :
    runChecks cs coreCmd fullCmd =
      ((cs.find? (fun c => c.2 coreCmd fullCmd)).map Prod.fst).getD [] := by
  induction cs with
  | nil => rfl
  | cons hd tl ih =>
    obtain ⟨n, d⟩ := hd
    by_cases h : d coreCmd fullCmd = true
    · simp [runChecks, h]
    · simp [runChecks, h, ih]

/-- The segment scan selects (the trimmed form of) the first segment
satisfying `envSegmentP`, whatever non-install fallback has been recorded. -/
theorem scanParts_env {parts : List (List Char)} {p : List Char}
    (h : parts.find? envSegmentP = some p) :
    ∀ fni, scanParts parts fni = .env (trimSpaceL p) := by
  induction parts with
  | nil => simp at h
  | cons q qs ih =>
    intro fni
    by_cases hq : envSegmentP q = true
    · rw [List.find?_cons_of_pos _ hq] at h
      injection h with h
      subst h
      have h1 : ¬ trimSpaceL q = [] := by
        intro hz
        simp [envSegmentP, hz] at hq
      have h2 : looksLikeEnvironmentCommand (trimSpaceL q) = true := by
        simp only [envSegmentP, Bool.and_eq_true] at hq
        exact hq.2
      simp [scanParts, h1, h2]
    · rw [List.find?_cons_of_neg _ hq] at h
      by_cases h1 : trimSpaceL q = []
      · simp [scanParts, h1, ih h]
      · have h2 : looksLikeEnvironmentCommand (trimSpaceL q) = false := by
          cases hl : looksLikeEnvironmentCommand (trimSpaceL q) with
          | false => rfl
          | true =>
            refine absurd ?_ hq
            simp only [envSegmentP, Bool.and_eq_true, Bool.not_eq_true',
              List.isEmpty_eq_false]
            exact ⟨h1, hl⟩
        simp only [scanParts]
        rw [if_neg h1, if_neg (by simp [h2])]
        split
        · exact ih h _
        · exact ih h _

/-- When the stripped command contains a chain separator and some segment
looks like an environment-mutation attempt, the first such segment becomes
the core command. -/
theorem extractCoreCommand_chain {cmd sep p : List Char}
    (hsep : findSep chainSeps (stripOnce goPrefixes cmd) = some sep)
    (hfind : (splitOnL sep (stripOnce goPrefixes cmd)).find? envSegmentP = some p) :
    extractCoreCommand cmd = trimSpaceL p := by
  simp [extractCoreCommand, hsep, scanParts_env hfind]

/-- A leading `sudo ` prefix is stripped before chain decomposition. -/
theorem stripOnce_sudo (s : List Char) :
    stripOnce goPrefixes (chars "sudo " ++ s) = s := by
  have h := startsWithL_append (chars "sudo ") s
  simp only [goPrefixes, stripOnce, h, if_pos]
  exact List.drop_left _ _

/-! ## Claim theorems -/

/-- C1: Classification strips one leading privilege/detachment prefix
(`sudo `, `sudo -E `, `sudo -i `, `nohup `) first; when the command contains
a chain separator, the first segment (scanned left to right) that looks like
an environment-mutation attempt is selected as the core command, overriding
the rest of the chain; `classify("sudo source ~/.zshrc")` yields category
`source`, and `classify("sudo apt install curl && source ~/.bashrc")` yields
category `source`. -/
theorem C1_chain_decomposition :
    goPrefixes = [chars "sudo ", chars "sudo -E ", chars "sudo -i ", chars "nohup "] ∧
    chainSeps = [chars " && ", chars " || ", chars " ; ", chars "; "] ∧
    (∀ s : List Char, stripOnce goPrefixes (chars "sudo " ++ s) = s) ∧
    (∀ cmd sep p : List Char,
      findSep chainSeps (stripOnce goPrefixes cmd) = some sep →
      (splitOnL sep (stripOnce goPrefixes cmd)).find? envSegmentP = some p →
      extractCoreCommand cmd = trimSpaceL p) ∧
    detectEnvironmentCommand (chars "sudo source ~/.zshrc") = chars "source" ∧
    detectEnvironmentCommand (chars "sudo apt install curl && source ~/.bashrc") =
      chars "source" :=
  ⟨rfl, rfl, stripOnce_sudo,
   fun _cmd _sep _p h1 h2 => extractCoreCommand_chain h1 h2,
   by decide, by decide⟩

/-- Witness for C1 at concrete inputs: the `sudo ` prefix of `sudo ls -la` is
stripped, and in `sudo apt install curl && source ~/.bashrc` the mutating
second segment is selected as the core command. -/
theorem C1_witness :
    stripOnce goPrefixes (chars "sudo " ++ chars "ls -la") = chars "ls -la" ∧
    extractCoreCommand (chars "sudo apt install curl && source ~/.bashrc") =
      trimSpaceL (chars "source ~/.bashrc") :=
  ⟨C1_chain_decomposition.2.2.1 (chars "ls -la"),
   C1_chain_decomposition.2.2.2.1 (chars "sudo apt install curl && source ~/.bashrc")
     (chars " && ") (chars "source ~/.bashrc") (by decide) (by decide)⟩

/-- C2: The detectors are applied in the fixed order `path_modification`,
`conda_env`, `source`, `export`, `alias`, `cd`, `virtual_env`,
`shell_function`, `environment_module`, `shell_options`, `docker_env`,
`rbenv_pyenv`, and the verdict of the first matching detector is returned;
hence every command matching a `path_modification` pattern classifies as
`path_modification` even when it also matches the `export` detector, as
`echo 'export PATH=$PATH:/x' >> ~/.bashrc` does. -/
theorem C2_detector_priority :
    (envChecks.map Prod.fst =
      [chars "path_modification", chars "conda_env", chars "source",
       chars "export", chars "alias", chars "cd", chars "virtual_env",
       chars "shell_function", chars "environment_module", chars "shell_options",
       chars "docker_env", chars "rbenv_pyenv"]) ∧
    (∀ cmd : List Char,
      detectEnvironmentCommand cmd =
        ((envChecks.find?
            (fun c => c.2 (extractCoreCommand (toLowerL cmd)) cmd)).map Prod.fst).getD []) ∧
    (∀ cmd : List Char,
      detectPathModification (extractCoreCommand (toLowerL cmd)) cmd = true →
      detectEnvironmentCommand cmd = chars "path_modification") ∧
    detectEnvironmentCommand (chars "echo \x27export PATH=$PATH:/x\x27 >> ~/.bashrc") =
      chars "path_modification" ∧
    detectExportCommand
      (extractCoreCommand (toLowerL (chars "echo \x27export PATH=$PATH:/x\x27 >> ~/.bashrc")))
      (chars "echo \x27export PATH=$PATH:/x\x27 >> ~/.bashrc") = true := by
  refine ⟨rfl, fun cmd => runChecks_eq_find envChecks _ cmd, fun cmd h => ?_, by decide, by decide⟩
  simp [detectEnvironmentCommand, envChecks, runChecks, h]

/-- Witness for C2: the priority consequence applied at the concrete command
matching both `path_modification` and `export` patterns. -/
theorem C2_witness :
    detectPathModification
      (extractCoreCommand (toLowerL (chars "echo \x27export PATH=$PATH:/x\x27 >> ~/.bashrc")))
      (chars "echo \x27export PATH=$PATH:/x\x27 >> ~/.bashrc") = true ∧
    detectEnvironmentCommand (chars "echo \x27export PATH=$PATH:/x\x27 >> ~/.bashrc") =
      chars "path_modification" :=
  ⟨by decide,
   C2_detector_priority.2.2.1 (chars "echo \x27export PATH=$PATH:/x\x27 >> ~/.bashrc")
     (by decide)⟩

/-- C9: `classify("ls -la")`, `classify("sudo apt-get install vim")` and
`classify("docker run -it ubuntu bash")` return no category (safe), and no
detector matches any of them. -/
theorem C9_no_false_positives :
    validateEnvironmentCommand (chars "ls -la") = none ∧
    validateEnvironmentCommand (chars "sudo apt-get install vim") = none ∧
    validateEnvironmentCommand (chars "docker run -it ubuntu bash") = none ∧
    envChecks.all
      (fun c => !(c.2 (extractCoreCommand (toLowerL (chars "ls -la"))) (chars "ls -la"))) = true ∧
    envChecks.all
      (fun c => !(c.2 (extractCoreCommand (toLowerL (chars "sudo apt-get install vim")))
        (chars "sudo apt-get install vim"))) = true ∧
    envChecks.all
      (fun c => !(c.2 (extractCoreCommand (toLowerL (chars "docker run -it ubuntu bash")))
        (chars "docker run -it ubuntu bash"))) = true := by
  decide

/-- C10: A command that is empty or consists only of whitespace is treated as
safe: the classifier returns no verdict. -/
theorem C10_whitespace_safe (command : List Char) (h : trimSpaceL command = []) :
    validateEnvironmentCommand command = none := by
  simp [validateEnvironmentCommand, h]

/-- Witness for C10 at a whitespace-only command. -/
theorem C10_witness :
    trimSpaceL (chars " \t \n ") = [] ∧
    validateEnvironmentCommand (chars " \t \n ") = none :=
  ⟨by decide, C10_whitespace_safe (chars " \t \n ") (by decide)⟩

/-- `Char.ofNat` of a valid code point keeps its value. -/
theorem toNat_ofNat_valid {n : Nat} (h : n.isValidChar) : (Char.ofNat n).toNat = n := by
  rw [Char.ofNat, dif_pos h]
  rfl

/-- ASCII lowercasing never yields an ASCII uppercase letter. -/
theorem lowerChar_not_upper (c : Char) :
    ¬ (65 ≤ (lowerChar c).toNat ∧ (lowerChar c).toNat ≤ 90) := by
  unfold lowerChar
  split
  · next h =>
    have hv : Nat.isValidChar (c.toNat + 32) := Or.inl (by omega)
    rw [toNat_ofNat_valid hv]
    rintro ⟨h1, h2⟩
    omega
  · next h => exact h

/-- No character of a lowercased command is an ASCII uppercase letter. -/
theorem toLowerL_no_upper {c : Char} {s : List Char} (h : c ∈ toLowerL s) :
    ¬ (65 ≤ c.toNat ∧ c.toNat ≤ 90) := by
  unfold toLowerL at h
  obtain ⟨d, _, rfl⟩ := List.mem_map.1 h
  exact lowerChar_not_upper d

/-- A character of a trimmed string is a character of the string. -/
theorem mem_of_mem_trimSpaceL {c : Char} {s : List Char} (h : c ∈ trimSpaceL s) :
    c ∈ s := by
  unfold trimSpaceL at h
  rw [List.mem_reverse] at h
  have h2 := (List.dropWhile_sublist isSpaceGo).subset h
  rw [List.mem_reverse] at h2
  exact (List.dropWhile_sublist isSpaceGo).subset h2

/-- An assignment name accepted by `upperOrUnderscoreHead` starts with an
ASCII uppercase letter or an underscore. -/
theorem upperOrUnderscoreHead_eq_true {l : List Char}
    (h : upperOrUnderscoreHead l = true) :
    ∃ c t, l = c :: t ∧ ((65 ≤ c.toNat ∧ c.toNat ≤ 90) ∨ c = '_') := by
  cases l with
  | nil => simp [upperOrUnderscoreHead] at h
  | cons c t =>
    refine ⟨c, t, rfl, ?_⟩
    simp only [upperOrUnderscoreHead, Bool.or_eq_true, Bool.and_eq_true,
      decide_eq_true_eq, beq_iff_eq] at h
    exact h

/-- On a lowercased command, `looksLikeEnvironmentCommand` can fire only
through a keyword start or an assignment whose name starts with `_`: the
ASCII-uppercase branch of the assignment test is unreachable. -/
theorem looksLike_lowered (s : List Char)
    (h : looksLikeEnvironmentCommand (toLowerL s) = true) :
    envKeywordStart (toLowerL s) = true ∨
    ∃ t, trimSpaceL ((toLowerL s).takeWhile (fun ch => !(ch == '='))) = '_' :: t := by
  unfold looksLikeEnvironmentCommand at h
  rw [Bool.or_eq_true] at h
  rcases h with h | h
  · exact Or.inl h
  · simp only [Bool.and_eq_true] at h
    obtain ⟨-, hm⟩ := h
    obtain ⟨c, t, hE, hc⟩ := upperOrUnderscoreHead_eq_true hm
    rcases hc with hup | hund
    · exfalso
      have h1 : c ∈ trimSpaceL ((toLowerL s).takeWhile (fun ch => !(ch == '='))) := by
        rw [hE]
        exact List.mem_cons_self c t
      have h2 := mem_of_mem_trimSpaceL h1
      have h3 := (List.takeWhile_sublist _).subset h2
      exact toLowerL_no_upper h3 hup
    · exact Or.inr ⟨t, by rw [hE, hund]⟩

/-- C6 counterexample: `echo hi && MYVAR=1 make` is a chained command with a
segment of uppercase-variable-assignment shape (`MYVAR=1 make`), yet
core-command extraction selects `echo hi`, not the assignment segment: the
claimed selection of the uppercase-assignment segment does not happen. -/
theorem C6_counterexample :
    varAssignMatch (trimSpaceL (chars "MYVAR=1 make")) = true ∧
    extractCoreCommand (toLowerL (chars "echo hi && MYVAR=1 make")) = chars "echo hi" ∧
    extractCoreCommand (toLowerL (chars "echo hi && MYVAR=1 make")) ≠
      trimSpaceL (toLowerL (chars "MYVAR=1 make")) := by
  decide

/-- C6 (amended): detection lowercases the whole command before segment
scanning, so the `NAME=value` shape check inside the scan can fire only for
names starting with `_` (never for ASCII uppercase names); an
uppercase-assignment segment can still become the core command, but only as
the first non-installer fallback, as happens in
`sudo apt install curl && MYVAR=1 make` (which then matches no detector);
the original-case full string is preserved for the export detector's
assignment regex, which does fire for an unchained `MYVAR=1`. -/
theorem C6_amended_uppercase_assignment :
    (∀ s : List Char,
      looksLikeEnvironmentCommand (toLowerL s) = true →
      envKeywordStart (toLowerL s) = true ∨
      ∃ t, trimSpaceL ((toLowerL s).takeWhile (fun ch => !(ch == '='))) = '_' :: t) ∧
    looksLikeEnvironmentCommand (toLowerL (chars "MYVAR=1 make")) = false ∧
    looksLikeEnvironmentCommand (chars "_build=1 make") = true ∧
    extractCoreCommand (toLowerL (chars "sudo apt install curl && MYVAR=1 make")) =
      chars "myvar=1 make" ∧
    detectEnvironmentCommand (chars "sudo apt install curl && MYVAR=1 make") = [] ∧
    detectEnvironmentCommand (chars "MYVAR=1") = chars "export" :=
  ⟨looksLike_lowered, by decide, by decide, by decide, by decide, by decide⟩

/-- Witness for the amended C6: the general lowercasing fact applied at a
concrete underscore assignment. -/
theorem C6_witness :
    looksLikeEnvironmentCommand (toLowerL (chars "_path=1")) = true ∧
    (envKeywordStart (toLowerL (chars "_path=1")) = true ∨
     ∃ t, trimSpaceL ((toLowerL (chars "_path=1")).takeWhile (fun ch => !(ch == '='))) =
       '_' :: t) :=
  ⟨by decide, C6_amended_uppercase_assignment.1 (chars "_path=1") (by decide)⟩

/-! ### Fence-extraction lemmas -/

/-- Any valid language tag (or the empty alternative) followed by a newline is
consumed by the tag alternation. -/
theorem dropTag_valid (tag Y : List Char) (h : tag = [] ∨ tag ∈ fenceTags) :
    dropTagNewline fenceTags (tag ++ '\n' :: Y) = some Y := by
  rcases h with rfl | h
  · rfl
  · fin_cases h <;> rfl

/-- The lazy interior stops at the first closing fence: a backtick-free body
followed by a fence is captured exactly. -/
theorem grabInner_through : ∀ (body rest : List Char), (∀ c ∈ body, c ≠ btick) →
    grabInner (body ++ (fenceMark ++ rest)) = some body
  | [], rest, _ => by
    show grabInner (btick :: (btick :: (btick :: rest))) = some []
    simp only [grabInner]
    rw [if_pos (show startsWithL fenceMark (btick :: (btick :: (btick :: rest))) = true from
      startsWithL_append fenceMark rest)]
  | c :: body', rest, hb => by
    have hc : c ≠ btick := hb c (List.mem_cons_self c body')
    have hsw : startsWithL fenceMark (c :: (body' ++ (fenceMark ++ rest))) = false := by
      rw [show fenceMark = [btick, btick, btick] from rfl]
      simp only [startsWithL]
      rw [beq_eq_false_iff_ne.mpr (Ne.symm hc)]
      simp
    show grabInner (c :: (body' ++ (fenceMark ++ rest))) = some (c :: body')
    simp only [grabInner, hsw, Bool.false_eq_true, if_false]
    rw [grabInner_through body' rest (fun d hd => hb d (List.mem_cons_of_mem c hd))]
    rfl

/-- A match of the regex at one start position determines the leftmost
search result. -/
theorem findFence_cons_some {x : Char} {t b : List Char}
    (h : tryFenceAt (x :: t) = some b) :
    findFence (x :: t) = some b := by
  simp [findFence, h]

/-- The leftmost search skips over a backtick-free region. -/
theorem findFence_skip : ∀ (pre s : List Char), (∀ c ∈ pre, c ≠ btick) →
    findFence (pre ++ s) = findFence s
  | [], _, _ => rfl
  | c :: pre', s, hp => by
    have hc : c ≠ btick := hp c (List.mem_cons_self c pre')
    have hsw : startsWithL fenceMark (c :: (pre' ++ s)) = false := by
      rw [show fenceMark = [btick, btick, btick] from rfl]
      simp only [startsWithL]
      rw [beq_eq_false_iff_ne.mpr (Ne.symm hc)]
      simp
    show findFence (c :: (pre' ++ s)) = findFence s
    simp only [findFence]
    rw [show tryFenceAt (c :: (pre' ++ s)) = none by simp [tryFenceAt, hsw]]
    exact findFence_skip pre' s (fun d hd => hp d (List.mem_cons_of_mem c hd))

/-- The regex matches at a well-formed fence and captures the body. -/
theorem findFence_fence (tag body rest : List Char) (htag : tag = [] ∨ tag ∈ fenceTags)
    (hb : ∀ c ∈ body, c ≠ btick) :
    findFence (fenceMark ++ (tag ++ ('\n' :: (body ++ (fenceMark ++ rest))))) = some body := by
  have h1 : tryFenceAt (fenceMark ++ (tag ++ ('\n' :: (body ++ (fenceMark ++ rest))))) =
      some body := by
    unfold tryFenceAt
    rw [if_pos (startsWithL_append _ _), List.drop_left, dropTag_valid tag _ htag]
    simpa using grabInner_through body rest hb
  exact findFence_cons_some h1

/-- A well-formed fenced block anywhere after a backtick-free prelude is
extracted and trimmed. -/
theorem extractScript_fence (pre tag body rest : List Char)
    (hpre : ∀ c ∈ pre, c ≠ btick) (htag : tag = [] ∨ tag ∈ fenceTags)
    (hb : ∀ c ∈ body, c ≠ btick) :
    extractScript (pre ++ (fenceMark ++ (tag ++ ('\n' :: (body ++ (fenceMark ++ rest)))))) =
      trimSpaceL body := by
  unfold extractScript
  rw [findFence_skip pre _ hpre, findFence_fence tag body rest htag hb]

/-! ### Claim theorems for the response classifier -/

/-- C3: `parse` trims the raw text; a `COMMAND:` prefix yields `Command` of
the stripped and trimmed content; a `FAILURE:` prefix yields `Failure` of the
trimmed reason; unrecognized text falls back to `Command` of the trimmed raw
text; the empty input yields `Command("")`.  (The function is total by
construction.) -/
theorem C3_prefix_rules :
    (∀ raw : List Char, startsWithL (chars "COMMAND:") (trimSpaceL raw) = true →
      parseAIResponse raw =
        ⟨.command, trimSpaceL ((trimSpaceL raw).drop (chars "COMMAND:").length), []⟩) ∧
    (∀ raw : List Char, startsWithL (chars "FAILURE:") (trimSpaceL raw) = true →
      parseAIResponse raw =
        ⟨.failure, [], trimSpaceL ((trimSpaceL raw).drop (chars "FAILURE:").length)⟩) ∧
    (∀ raw : List Char,
      startsWithL (chars "COMMAND:") (trimSpaceL raw) = false →
      startsWithL (chars "SCRIPT:") (trimSpaceL raw) = false →
      startsWithL (chars "FAILURE:") (trimSpaceL raw) = false →
      parseAIResponse raw = ⟨.command, trimSpaceL raw, []⟩) ∧
    parseAIResponse [] = ⟨.command, [], []⟩ := by
  refine ⟨?_, ?_, ?_, by decide⟩
  · intro raw h
    simp [parseAIResponse, h]
  · intro raw h
    have hC : startsWithL (chars "COMMAND:") (trimSpaceL raw) = false := by
      obtain ⟨r, hr⟩ := startsWithL_iff.1 h
      rw [hr]
      rfl
    have hS : startsWithL (chars "SCRIPT:") (trimSpaceL raw) = false := by
      obtain ⟨r, hr⟩ := startsWithL_iff.1 h
      rw [hr]
      rfl
    simp [parseAIResponse, h, hC, hS]
  · intro raw h1 h2 h3
    simp [parseAIResponse, h1, h2, h3]

/-- Witness for C3 at concrete inputs: a padded `COMMAND:` response, a
`FAILURE:` response, and an unprefixed fallback. -/
theorem C3_witness :
    parseAIResponse (chars "COMMAND:   ls -la   ") = ⟨.command, chars "ls -la", []⟩ ∧
    parseAIResponse (chars "FAILURE:   Task too vague   ") =
      ⟨.failure, [], chars "Task too vague"⟩ ∧
    parseAIResponse (chars "random unprefixed text") =
      ⟨.command, chars "random unprefixed text", []⟩ :=
  ⟨(C3_prefix_rules.1 (chars "COMMAND:   ls -la   ") (by decide)).trans (by decide),
   (C3_prefix_rules.2.1 (chars "FAILURE:   Task too vague   ") (by decide)).trans (by decide),
   (C3_prefix_rules.2.2.1 (chars "random unprefixed text")
     (by decide) (by decide) (by decide)).trans (by decide)⟩

/-- C4: a `SCRIPT:` response is stripped of its prefix; when the remaining
text contains a triple-backtick fenced block (optionally tagged `bash`, `sh`,
`cmd`, `bat`, `powershell` or `ps1`), only the trimmed fenced interior is
kept (language tag ignored); otherwise the stripped text is used verbatim;
in particular the concrete `SCRIPT:` example with a `bash` fence yields
`Script("echo hi\nls")`. -/
theorem C4_script_extraction :
    (∀ raw : List Char, startsWithL (chars "SCRIPT:") (trimSpaceL raw) = true →
      parseAIResponse raw =
        ⟨.script,
         extractScript (trimSpaceL ((trimSpaceL raw).drop (chars "SCRIPT:").length)), []⟩) ∧
    (∀ pre tag body rest : List Char,
      (∀ c ∈ pre, c ≠ btick) → (tag = [] ∨ tag ∈ fenceTags) → (∀ c ∈ body, c ≠ btick) →
      extractScript (pre ++ (fenceMark ++ (tag ++ ('\n' :: (body ++ (fenceMark ++ rest)))))) =
        trimSpaceL body) ∧
    (∀ sc : List Char, findFence sc = none → extractScript sc = sc) ∧
    parseAIResponse (chars "SCRIPT:\n```bash\necho hi\nls\n```") =
      ⟨.script, chars "echo hi\nls", []⟩ := by
  refine ⟨?_, extractScript_fence, ?_, by decide⟩
  · intro raw h
    have hC : startsWithL (chars "COMMAND:") (trimSpaceL raw) = false := by
      obtain ⟨r, hr⟩ := startsWithL_iff.1 h
      rw [hr]
      rfl
    simp [parseAIResponse, h, hC]
  · intro sc h
    simp [extractScript, h]

/-- Witness for C4: the fence theorem applied at the concrete tagged block of
the claim (prelude empty, tag `bash`, body `echo hi\nls`). -/
theorem C4_witness :
    extractScript (([] : List Char) ++ (fenceMark ++ (chars "bash" ++
        ('\n' :: (chars "echo hi\nls" ++ (fenceMark ++ [])))))) =
      trimSpaceL (chars "echo hi\nls") :=
  C4_script_extraction.2.1 [] (chars "bash") (chars "echo hi\nls") []
    (by decide) (by decide) (by decide)

/-! ### Retry-wrapper lemmas -/

/-- One failing step of the retry loop. -/
theorem retryAux_step {ε α : Type} (fn : Nat → Except ε α) (m : Nat)
    (r i delay : Nat) (sleeps : List Nat) (lastErr : Option ε) {e : ε}
    (he : fn i = .error e) :
    retryAux fn m (r + 1) i delay sleeps lastErr =
      retryAux fn m r (i + 1) (capDouble delay) (delay :: sleeps) (some e) := by
  simp only [retryAux]
  rw [he]

/-- If the first `k` invocations fail and the `(k+1)`-st succeeds within the
budget, the loop returns that success after `k + 1` further invocations. -/
theorem retryAux_succ {ε α : Type} (fn : Nat → Except ε α) (m : Nat) (v : α) :
    ∀ (k remaining i delay : Nat) (sleeps : List Nat) (lastErr : Option ε),
      k < remaining →
      (∀ j, j < k → ∃ e, fn (i + j) = .error e) →
      fn (i + k) = .ok v →
      (retryAux fn m remaining i delay sleeps lastErr).result = .ok v ∧
      (retryAux fn m remaining i delay sleeps lastErr).invocations = i + k + 1 := by
  intro k
  induction k with
  | zero =>
    intro remaining i delay sleeps lastErr hk _ hsucc
    match remaining, hk with
    | r + 1, _ =>
      rw [Nat.add_zero] at hsucc
      simp only [retryAux]
      rw [hsucc]
      exact ⟨rfl, rfl⟩
  | succ k ih =>
    intro remaining i delay sleeps lastErr hk hfail hsucc
    match remaining, hk with
    | r + 1, hk =>
      obtain ⟨e, he⟩ := hfail 0 (Nat.succ_pos k)
      rw [Nat.add_zero] at he
      rw [retryAux_step fn m r i delay sleeps lastErr he]
      have h2 := ih r (i + 1) (capDouble delay) (delay :: sleeps) (some e)
        (Nat.lt_of_succ_lt_succ hk)
        (fun j hj => by
          have := hfail (j + 1) (Nat.succ_lt_succ hj)
          rwa [show i + (j + 1) = i + 1 + j by omega] at this)
        (by rwa [show i + (k + 1) = i + 1 + k by omega] at hsucc)
      refine ⟨h2.1, ?_⟩
      rw [h2.2]
      omega

/-- If every invocation in the budget fails, the loop performs exactly
`remaining` further invocations, sleeps the doubled-and-capped sequence, and
returns an error carrying the configured attempt count and the last
underlying error. -/
theorem retryAux_fail {ε α : Type} (fn : Nat → Except ε α) (m : Nat) :
    ∀ (remaining i delay : Nat) (sleeps : List Nat) (lastErr : Option ε),
      (∀ j, j < remaining → ∃ e, fn (i + j) = .error e) →
      (retryAux fn m remaining i delay sleeps lastErr).invocations = i + remaining ∧
      (retryAux fn m remaining i delay sleeps lastErr).sleeps =
        sleeps.reverse ++ sleepSeq delay remaining ∧
      (remaining = 0 →
        (retryAux fn m remaining i delay sleeps lastErr).result = .error (m, lastErr)) ∧
      (0 < remaining →
        ∃ e, fn (i + remaining - 1) = .error e ∧
          (retryAux fn m remaining i delay sleeps lastErr).result = .error (m, some e)) := by
  intro remaining
  induction remaining with
  | zero =>
    intro i delay sleeps lastErr _
    exact ⟨rfl, by simp [retryAux, sleepSeq], fun _ => rfl, fun h => absurd h (by omega)⟩
  | succ r ih =>
    intro i delay sleeps lastErr hfail
    obtain ⟨e, he⟩ := hfail 0 (Nat.succ_pos r)
    rw [Nat.add_zero] at he
    rw [retryAux_step fn m r i delay sleeps lastErr he]
    have h2 := ih (i + 1) (capDouble delay) (delay :: sleeps) (some e)
      (fun j hj => by
        have := hfail (j + 1) (Nat.succ_lt_succ hj)
        rwa [show i + (j + 1) = i + 1 + j by omega] at this)
    refine ⟨by rw [h2.1]; omega, ?_, fun h => absurd h (Nat.succ_ne_zero r), ?_⟩
    · rw [h2.2.1]
      simp [sleepSeq, List.append_assoc]
    · intro _
      rcases Nat.eq_zero_or_pos r with hr | hr
      · subst hr
        refine ⟨e, ?_, h2.2.2.1 rfl⟩
        rwa [show i + (0 + 1) - 1 = i by omega]
      · obtain ⟨e2, he2, hres⟩ := h2.2.2.2 hr
        refine ⟨e2, ?_, hres⟩
        rwa [show i + 1 + r - 1 = i + (r + 1) - 1 by omega] at he2

/-- The `j`-th sleep (0-indexed) of the doubled-and-capped sequence equals
`min (d * 2 ^ j) tenSeconds`, provided the initial delay does not exceed the
cap. -/
theorem sleepSeq_get : ∀ (d n j : Nat), d ≤ tenSeconds → j < n →
    (sleepSeq d n)[j]? = some (min (d * 2 ^ j) tenSeconds)
  | d, n + 1, 0, hd, _ => by
    simp [sleepSeq, Nat.min_eq_left hd]
  | d, n + 1, j + 1, hd, hj => by
    have hcap : capDouble d ≤ tenSeconds := by
      unfold capDouble
      split <;> omega
    have ih := sleepSeq_get (capDouble d) n j hcap (Nat.lt_of_succ_lt_succ hj)
    simp only [sleepSeq, List.getElem?_cons_succ]
    rw [ih]
    congr 1
    unfold capDouble
    split
    · next h =>
      have h1 : tenSeconds ≤ tenSeconds * 2 ^ j :=
        Nat.le_mul_of_pos_right _ (Nat.pos_pow_of_pos j (by omega))
      have h2 : tenSeconds ≤ d * 2 ^ (j + 1) := by
        calc tenSeconds ≤ d * 2 := by omega
        _ ≤ d * 2 * 2 ^ j := Nat.le_mul_of_pos_right _ (Nat.pos_pow_of_pos j (by omega))
        _ = d * 2 ^ (j + 1) := by ring
      rw [Nat.min_eq_right h1, Nat.min_eq_right h2]
    · next h =>
      have : d * 2 * 2 ^ j = d * 2 ^ (j + 1) := by ring
      rw [this]

/-- C5: with `maxAttempts ≥ 1`, a call failing exactly `k < maxAttempts`
times and then succeeding returns that success after exactly `k + 1`
invocations; a call failing at every invocation returns, after exactly
`maxAttempts` invocations, an error carrying the attempt count and the last
underlying error; and (for an initial delay within the `10 s` cap) the `i`-th
sleep — performed after the `i`-th failed invocation, before any next one —
is `min (initialDelay * 2 ^ (i - 1), delayCap)`. -/
theorem C5_retry_semantics {ε α : Type} (fn : Nat → Except ε α)
    (maxAttempts d : Nat) (hmax : 1 ≤ maxAttempts) :
    (∀ (k : Nat) (v : α), k < maxAttempts →
      (∀ j, j < k → ∃ e, fn j = .error e) → fn k = .ok v →
      (exponentialRetryForAiResponse fn maxAttempts d).result = .ok v ∧
      (exponentialRetryForAiResponse fn maxAttempts d).invocations = k + 1) ∧
    ((∀ j, j < maxAttempts → ∃ e, fn j = .error e) →
      ∃ e, fn (maxAttempts - 1) = .error e ∧
        (exponentialRetryForAiResponse fn maxAttempts d).result =
          .error (maxAttempts, some e) ∧
        (exponentialRetryForAiResponse fn maxAttempts d).invocations = maxAttempts) ∧
    ((∀ j, j < maxAttempts → ∃ e, fn j = .error e) → d ≤ tenSeconds →
      ∀ i, 1 ≤ i → i ≤ maxAttempts →
        (exponentialRetryForAiResponse fn maxAttempts d).sleeps[i - 1]? =
          some (min (d * 2 ^ (i - 1)) tenSeconds)) := by
  refine ⟨?_, ?_, ?_⟩
  · intro k v hk hfail hsucc
    have h := retryAux_succ fn maxAttempts v k maxAttempts 0 d [] none hk
      (fun j hj => by simpa using hfail j hj) (by simpa using hsucc)
    refine ⟨h.1, ?_⟩
    have h2 := h.2
    unfold exponentialRetryForAiResponse
    omega
  · intro hfail
    have h := retryAux_fail fn maxAttempts maxAttempts 0 d [] none
      (fun j hj => by simpa using hfail j hj)
    obtain ⟨e, he, hres⟩ := h.2.2.2 (by omega)
    refine ⟨e, by simpa using he, hres, ?_⟩
    have h1 := h.1
    unfold exponentialRetryForAiResponse
    omega
  · intro hfail hd i h1 h2
    have h := retryAux_fail fn maxAttempts maxAttempts 0 d [] none
      (fun j hj => by simpa using hfail j hj)
    rw [show (exponentialRetryForAiResponse fn maxAttempts d).sleeps =
      sleepSeq d maxAttempts by
        unfold exponentialRetryForAiResponse
        simpa using h.2.1]
    exact sleepSeq_get d maxAttempts (i - 1) hd (by omega)

/-- Witness for C5: a call failing twice then succeeding under
`maxAttempts = 5`, and an always-failing call under `maxAttempts = 3` with
initial delay `4 s` (so the second sleep is capped-free `8 s`). -/
theorem C5_witness :
    ((exponentialRetryForAiResponse
        (fun j => if j < 2 then Except.error () else Except.ok 7) 5 1000000000).result =
      Except.ok 7 ∧
     (exponentialRetryForAiResponse
        (fun j => if j < 2 then Except.error () else Except.ok 7) 5 1000000000).invocations =
      2 + 1) ∧
    (∃ e : Unit, (Except.error () : Except Unit Nat) = Except.error e ∧
      (exponentialRetryForAiResponse
        (fun _ : Nat => (Except.error () : Except Unit Nat)) 3 4000000000).result =
        Except.error (3, some e) ∧
      (exponentialRetryForAiResponse
        (fun _ : Nat => (Except.error () : Except Unit Nat)) 3 4000000000).invocations = 3) ∧
    (exponentialRetryForAiResponse
        (fun _ : Nat => (Except.error () : Except Unit Nat)) 3 4000000000).sleeps[2 - 1]? =
      some (min (4000000000 * 2 ^ (2 - 1)) tenSeconds) :=
  ⟨(C5_retry_semantics (fun j => if j < 2 then Except.error () else Except.ok 7)
      5 1000000000 (by omega)).1 2 7 (by omega)
      (fun j hj => ⟨(), by match j, hj with | 0, _ => rfl | 1, _ => rfl⟩) (by rfl),
   (C5_retry_semantics (fun _ : Nat => (Except.error () : Except Unit Nat))
      3 4000000000 (by omega)).2.1 (fun j _ => ⟨(), rfl⟩),
   (C5_retry_semantics (fun _ : Nat => (Except.error () : Except Unit Nat))
      3 4000000000 (by omega)).2.2 (fun j _ => ⟨(), rfl⟩) (by decide) 2
      (by omega) (by omega)⟩

/-! ### Intent-validator lemmas -/

/-- A word is an offender when it is not skipped (known directory or common
word), looks like a path (contains a separator), and fails the existence
test after tilde expansion. -/
def offenderP (fs : List Char → Bool) (home : List Char) (w : List Char) : Bool :=
  !(isKnownDirectory w || isCommonWord w) &&
  (containsSubL w (chars "/") || containsSubL w (chars "\\")) &&
  !pathExistsB fs home w

/-- The word loop reports the first offender (and nothing else): it
short-circuits without aggregating further errors. -/
theorem checkWords_eq_find (fs : List Char → Bool) (home : List Char) :
    ∀ ws : List (List Char),
      checkWords fs home ws = (ws.find? (offenderP fs home)).map dirErrMsg
  | [] => rfl
  | w :: ws => by
    simp only [checkWords]
    by_cases h1 : (isKnownDirectory w || isCommonWord w) = true
    · have hoff : offenderP fs home w = false := by simp [offenderP, h1]
      rw [if_pos h1, checkWords_eq_find fs home ws,
        List.find?_cons_of_neg _ (by simp [hoff])]
    · rw [if_neg h1]
      by_cases h2 : (containsSubL w (chars "/") || containsSubL w (chars "\\")) = true
      · rw [if_pos h2]
        by_cases h3 : pathExistsB fs home w = true
        · have hoff : offenderP fs home w = false := by simp [offenderP, h3]
          rw [if_neg (by simp [h3]), checkWords_eq_find fs home ws,
            List.find?_cons_of_neg _ (by simp [hoff])]
        · have hoff : offenderP fs home w = true := by
            simp only [offenderP, Bool.and_eq_true, Bool.not_eq_true']
            refine ⟨⟨?_, h2⟩, ?_⟩
            · exact Bool.not_eq_true _ ▸ Bool.of_not_eq_true h1
            · exact Bool.of_not_eq_true h3
          rw [if_pos (by simp [Bool.of_not_eq_true h3]), List.find?_cons_of_pos _ hoff]
          rfl
      · have hoff : offenderP fs home w = false := by
          simp [offenderP, Bool.of_not_eq_true h2]
        rw [if_neg h2, checkWords_eq_find fs home ws,
          List.find?_cons_of_neg _ (by simp [hoff])]

/-- A string occurs as a substring of any string of the form `a ++ w ++ b`. -/
theorem containsSubL_append_self (a w b : List Char) :
    containsSubL (a ++ (w ++ b)) w = true := by
  induction a with
  | nil =>
    cases w with
    | nil =>
      cases b with
      | nil => rfl
      | cons c t => simp [containsSubL, startsWithL]
    | cons c w' =>
      show containsSubL (c :: (w' ++ b)) (c :: w') = true
      simp only [containsSubL]
      rw [show startsWithL (c :: w') (c :: (w' ++ b)) = true from
        startsWithL_append (c :: w') b]
      simp
  | cons x a' ih =>
    show containsSubL (x :: (a' ++ (w ++ b))) w = true
    simp only [containsSubL, ih, Bool.or_true]

/-- The error message of the directory validator names the offending token. -/
theorem dirErrMsg_contains (w : List Char) : containsSubL (dirErrMsg w) w = true := by
  unfold dirErrMsg
  rw [List.append_assoc]
  exact containsSubL_append_self _ _ _

/-! ### Claim theorems for the intent validator -/

/-- C7: an intent containing none of the keywords `move`, `copy`, `list`,
`cd`, `navigate`, `directory`, `folder`, `file` as a case-insensitive
substring validates successfully, whatever its content and whatever the
filesystem looks like (the validator is a total function, so it cannot
panic). -/
theorem C7_no_keyword_success (fs : List Char → Bool) (home intent : List Char)
    (h : ∀ k ∈ dirKeywords, containsSubL (toLowerL intent) k = false) :
    validateIntent fs home intent = none := by
  have hc : containsDirectoryOperation intent = false := by
    unfold containsDirectoryOperation
    rw [List.any_eq_false]
    intro k hk
    simp [h k hk]
  simp [validateIntent, hc]

/-- Witness for C7: the empty intent and a non-ASCII whitespace-and-unicode
intent both validate against a filesystem where nothing exists. -/
theorem C7_witness :
    (∀ k ∈ dirKeywords, containsSubL (toLowerL (chars "")) k = false) ∧
    validateIntent (fun _ => false) [] (chars "") = none ∧
    (∀ k ∈ dirKeywords, containsSubL (toLowerL (chars "  héllo wörld ✓  ")) k = false) ∧
    validateIntent (fun _ => false) [] (chars "  héllo wörld ✓  ") = none :=
  ⟨by decide, C7_no_keyword_success (fun _ => false) [] (chars "") (by decide),
   by decide,
   C7_no_keyword_success (fun _ => false) [] (chars "  héllo wörld ✓  ") (by decide)⟩

/-- C8: when the intent's words contain an offending token — not a known
directory or stop word, containing `/` or `\`, and non-existent after a
leading `~` is expanded to the home directory — the first such token yields
the failure (no aggregation), and the error message contains the token. -/
theorem C8_directory_failure :
    (∀ (fs : List Char → Bool) (home intent w : List Char),
      (fieldsGo intent).find? (offenderP fs home) = some w →
      validateDirectoryReferences fs home intent = some (dirErrMsg w) ∧
      containsSubL (dirErrMsg w) w = true) ∧
    (∀ (fs : List Char → Bool) (home w : List Char),
      startsWithL (chars "~") w = true →
      pathExistsB fs home w = fs (joinPath home (w.drop 1))) ∧
    validateDirectoryReferences (fun _ => false) (chars "/home/u")
        (chars "move stuff to /definitely/not/a/real/path") =
      some (dirErrMsg (chars "/definitely/not/a/real/path")) := by
  refine ⟨?_, ?_, by decide⟩
  · intro fs home intent w hfind
    refine ⟨?_, dirErrMsg_contains w⟩
    unfold validateDirectoryReferences
    rw [checkWords_eq_find fs home (fieldsGo intent), hfind]
    rfl
  · intro fs home w h
    simp [pathExistsB, expandTilde, h]

/-- Witness for C8: the failure theorem applied at the concrete intent
referencing `/definitely/not/a/real/path` (on a filesystem where no path
exists), and the tilde expansion at `~/stuff`. -/
theorem C8_witness :
    (validateDirectoryReferences (fun _ => false) (chars "/home/u")
        (chars "move stuff to /definitely/not/a/real/path") =
      some (dirErrMsg (chars "/definitely/not/a/real/path")) ∧
     containsSubL (dirErrMsg (chars "/definitely/not/a/real/path"))
        (chars "/definitely/not/a/real/path") = true) ∧
    pathExistsB (fun _ => false) (chars "/home/u") (chars "~/stuff") =
      (fun _ => false) (joinPath (chars "/home/u") ((chars "~/stuff").drop 1)) :=
  ⟨C8_directory_failure.1 (fun _ => false) (chars "/home/u")
      (chars "move stuff to /definitely/not/a/real/path")
      (chars "/definitely/not/a/real/path") (by decide),
   C8_directory_failure.2.1 (fun _ => false) (chars "/home/u") (chars "~/stuff")
      (by decide)⟩

end ExecuteMyWill
